import Mathlib

/-!
Verification development for the case-data-tracker pipeline (`src/app.py`).

The Python source is shallowly embedded: pure helpers become Lean
functions, pandas tables become lists of records with optional fields,
and the external capabilities (OCR backend, PDF text layer) become
explicit parameters, following the interface the specification assigns
to them.  Python floats are modelled exactly: in-range decimal literals
as rationals, out-of-range literals and the `inf` forms as signed
infinities, and a parsed `nan` is identified with the absent value,
since every consumer in this program (`pd.isna`, `fillna`,
`na_position`, `drop_duplicates` on missing keys) treats NaN as
missing.  `sort_values` is embedded by its documented contract only — a
permutation of the rows, sorted by the key — because its default
`kind="quicksort"` does not guarantee a stable order among equal keys.
-/

/-- The value of a successful Python `float(...)` call as this program
can observe it: a finite value (kept exact as a rational) or a signed
infinity.  A parsed NaN is not represented here: `pd.isna` is true of
it, `fillna` replaces it and sorting groups it with the missing values,
so the embedding identifies it with the absent result. -/
inductive PyNum where
  | fin (q : ℚ) : PyNum
  | inf (neg : Bool) : PyNum
deriving DecidableEq, Repr

/-- A raw Python value as it occurs in an amount-bearing cell: missing
(`None`/`NaN`), a string, or an already-numeric value. -/
inductive RawVal where
  | none : RawVal
  | str (s : String) : RawVal
  | num (p : PyNum) : RawVal
deriving DecidableEq, Repr

/-- Digit run to a natural number. -/
def digitsToNat (l : List Char) : Nat :=
  l.foldl (fun a c => a * 10 + (c.toNat - 48)) 0

/-- Split a character list at every character satisfying `p` (separators
dropped), mirroring Python `str.split` with a one-character separator. -/
def splitOnPred (p : Char → Bool) : List Char → List (List Char)
  | [] => [[]]
  | c :: cs =>
    let r := splitOnPred p cs
    if p c then [] :: r
    else match r with
      | [] => [[c]]
      | h :: t => (c :: h) :: t

/-- Whether a digit run with optional single underscores between digits
is well-formed: no leading, trailing or doubled underscore (the Python
3.6 numeric-literal rule). -/
def noBadUnderscore : List Char → Bool
  | [] => true
  | ['_'] => false
  | [_] => true
  | '_' :: '_' :: _ => false
  | _ :: c :: rest => noBadUnderscore (c :: rest)

/-- A possibly-empty digit group with underscore separators: `some` of
the digits with underscores removed when well-formed, `none` when the
group is malformed. -/
def digitsPart? (cs : List Char) : Option (List Char) :=
  match cs with
  | [] => some []
  | _ =>
    if cs.all (fun c => c.isDigit || c = '_')
        && (cs.head?.map Char.isDigit).getD false
        && (cs.getLast?.map Char.isDigit).getD false
        && noBadUnderscore cs then
      some (cs.filter Char.isDigit)
    else Option.none

/-- Value of the mantissa part of a decimal literal: digit groups with
at most one dot, at least one digit overall (Python accepts `5.`, `.5`
and `1_0.5` but rejects `.`, `1_.5` and the empty string). -/
def mantissaVal? (cs : List Char) : Option ℚ :=
  match splitOnPred (fun c => c = '.') cs with
  | [i] =>
    match digitsPart? i with
    | some d => if d ≠ [] then some (digitsToNat d : ℚ) else Option.none
    | Option.none => Option.none
  | [i, f] =>
    match digitsPart? i, digitsPart? f with
    | some di, some df =>
      if di ≠ [] ∨ df ≠ [] then
        some ((digitsToNat di : ℚ) + (digitsToNat df : ℚ) / (10 : ℚ) ^ df.length)
      else Option.none
    | _, _ => Option.none
  | _ => Option.none

/-- Value of an exponent part: optional sign then a nonempty digit
group (underscores allowed as between digits elsewhere). -/
def expVal? (cs : List Char) : Option ℤ :=
  let digits : List Char → Option ℤ := fun t =>
    match digitsPart? t with
    | some d => if d ≠ [] then some (digitsToNat d : ℤ) else Option.none
    | Option.none => Option.none
  match cs with
  | '-' :: t => (digits t).map (fun n => -n)
  | '+' :: t => digits t
  | t => digits t

/-- Smallest magnitude at which `float` rounds a decimal literal to
infinity: the midpoint between the largest finite double
`2^1024 - 2^971` and `2^1024`, which round-to-nearest-even sends up. -/
def floatBound : ℚ := 2 ^ 1024 - 2 ^ 970

/-- Classify an exactly-computed literal value as the double it rounds
to for this program: out-of-range magnitudes overflow to a signed
infinity, in-range values are kept exact. -/
def classifyFloat (q : ℚ) : PyNum :=
  if floatBound ≤ q then PyNum.inf false
  else if q ≤ -floatBound then PyNum.inf true
  else PyNum.fin q

/-- Case-insensitive comparison of a character list with a literal. -/
def lowerEq (cs : List Char) (s : String) : Bool :=
  cs.map Char.toLower = s.toList

/-- Model of Python `float(s)`: optional sign; the special forms `inf`,
`infinity` (signed infinities) and `nan` (identified with the absent
result, see `PyNum`); else a decimal literal with optional underscores
and `e`/`E` exponent, overflowing to infinity past the double range.
Returns `none` where Python raises `ValueError` (and for `nan`). -/
def pyFloat? (s : String) : Option PyNum :=
  let core : Bool → List Char → Option PyNum := fun neg body =>
    if lowerEq body "inf" || lowerEq body "infinity" then some (PyNum.inf neg)
    else if lowerEq body "nan" then Option.none
    else
      match splitOnPred (fun c => c = 'e' || c = 'E') body with
      | [m] => (mantissaVal? m).map (fun v => classifyFloat (if neg then -v else v))
      | [m, ex] => do
        let mv ← mantissaVal? m
        let ev ← expVal? ex
        pure (classifyFloat (if neg then -(mv * (10 : ℚ) ^ ev) else mv * (10 : ℚ) ^ ev))
      | _ => Option.none
  match s.toList with
  | '-' :: t => core true t
  | '+' :: t => core false t
  | t => core false t

/-- Python whitespace characters stripped by `str.strip()`. -/
def pyWs (c : Char) : Bool :=
  c = ' ' || c = '\t' || c = '\n' || c = '\r' || c = '\x0b' || c = '\x0c'

/-- Model of Python `str.strip()`. -/
def pyStrip (s : String) : String :=
  String.mk (((s.toList.dropWhile pyWs).reverse.dropWhile pyWs).reverse)

/-- Model of `str.replace(one-character pattern, "")`: delete every
occurrence of `c`. -/
def removeChar (c : Char) (s : String) : String :=
  String.mk (s.toList.filter (fun x => x ≠ c))
/-- Embedding of `parse_amount_to_float` (src/app.py:67-74): `None`/`NaN`
input yields `None`; otherwise the string form is stripped, `$` and `,`
are removed, and the residual is parsed with `float`, failures yielding
`None`.  Numeric input round-trips through `str`/`float`, which is
exact for finite doubles and infinities, and is modelled as
pass-through; a NaN cell is already the absent value (`pd.isna`). -/
def parse_amount_to_float : RawVal → Option PyNum
  | RawVal.none => Option.none
  | RawVal.num p => some p
  | RawVal.str s => pyFloat? (removeChar ',' (removeChar '$' (pyStrip s)))

/-- The canonical value form a parse result takes when handed back to the
parser: absent stays absent, a number is an already-numeric cell. -/
def canonOfParse : Option PyNum → RawVal
  | Option.none => RawVal.none
  | some p => RawVal.num p


/-- One row of the merged table (src/app.py:203-214).  Every canonical
column is present; a missing column is represented by all rows holding
the absent value, mirroring the standardization block that fills missing
columns with `None`. -/
structure Rec where
  case_number : Option String
  name : Option String
  amount : RawVal
  amount_raw : RawVal
  address : Option String
  source : Option String
  page : Option Nat
deriving DecidableEq, Repr
/-- The `amount_num` column (src/app.py:218): the parsed numeric amount
of a row. -/
def amountNum (r : Rec) : Option PyNum :=
  parse_amount_to_float r.amount

/-- Order embedding of a parsed number for comparisons: negative
infinity below every rational, positive infinity above. -/
def PyNum.toKey : PyNum → WithBot (WithTop ℚ)
  | PyNum.fin q => ((q : WithTop ℚ) : WithBot (WithTop ℚ))
  | PyNum.inf false => ((⊤ : WithTop ℚ) : WithBot (WithTop ℚ))
  | PyNum.inf true => (⊥ : WithBot (WithTop ℚ))

/-- The sort-key domain: an absent amount sits below every numeric
value, including negative infinity, matching pandas
`na_position="last"` in a descending sort. -/
abbrev AKey := WithBot (WithBot (WithTop ℚ))

/-- Sort key of a row for the dedupe block. -/
def keyQ (r : Rec) : AKey :=
  match amountNum r with
  | Option.none => (⊥ : AKey)
  | some p => ((p.toKey : WithBot (WithTop ℚ)) : AKey)

/-- The `fillna(0)` view of an amount used by the filter: absent (and
NaN) counts as 0, numbers count as themselves. -/
def fillnaKey (x : Option PyNum) : WithBot (WithTop ℚ) :=
  (x.getD (PyNum.fin 0)).toKey

/-- Contract of `merged.sort_values(by=["amount_num"], ascending=False)`
(src/app.py:223): the output is a permutation of the input, sorted
descending by amount with absent amounts last.  Nothing more is
guaranteed — the default `kind="quicksort"` is documented as unstable,
so the relative order of equal-amount rows is unspecified; theorems
about the dedupe block quantify over every function meeting this
contract. -/
def IsDescSort (f : List Rec → List Rec) : Prop :=
  ∀ l : List Rec, ((f l).Perm l) ∧ (f l).Pairwise (fun a b => keyQ b ≤ keyQ a)

/-- One admissible `sort_values` behavior: stable insertion, placing a
row before the first later row whose key is not larger. -/
def insStable (x : Rec) : List Rec → List Rec
  | [] => [x]
  | y :: ys => if keyQ y ≤ keyQ x then x :: y :: ys else y :: insStable x ys

/-- Stable descending insertion sort, one realization of the
`sort_values` contract (numpy uses insertion sort below its cutoff). -/
def sortStable (l : List Rec) : List Rec :=
  l.foldr insStable []

/-- Another admissible `sort_values` behavior: anti-stable insertion,
placing a row after every equal-key row. -/
def insAnti (x : Rec) : List Rec → List Rec
  | [] => [x]
  | y :: ys => if keyQ y < keyQ x then x :: y :: ys else y :: insAnti x ys

/-- Anti-stable descending insertion sort: also meets the `sort_values`
contract, but reverses equal-amount runs — distinguishing what the
unstable default sort does and does not guarantee. -/
def sortAnti (l : List Rec) : List Rec :=
  l.foldr insAnti []

/-- Embedding of `drop_duplicates(subset=["case_number"], keep="first")`
(src/app.py:223): keep the first row for each `case_number` value, where
pandas treats all missing keys (`None`/`NaN`) as equal to one another. -/
def dropDupKeepFirst : List (Option String) → List Rec → List Rec
  | _, [] => []
  | seen, x :: xs =>
    if x.case_number ∈ seen then dropDupKeepFirst seen xs
    else x :: dropDupKeepFirst (x.case_number :: seen) xs

/-- Embedding of the minimum-amount filter (src/app.py:219):
`merged[merged["amount_num"].fillna(0) >= float(min_amount)]`. -/
def filterStep (recs : List Rec) (minAmount : ℚ) : List Rec :=
  recs.filter (fun r => decide ((PyNum.fin minAmount).toKey ≤ fillnaKey (amountNum r)))

/-- Embedding of the merge-and-clean stage (src/app.py:203-223) from the
already-concatenated table onward, parametrized by the `sort_values`
behavior `sortBy`: filter by minimum amount, then, when
`dedupe_on_case` is set, sort descending by amount and drop duplicate
case numbers keeping the first row. -/
def reconcileWith (sortBy : List Rec → List Rec) (recs : List Rec)
    (minAmount : ℚ) (dedupeOnCase : Bool) : List Rec :=
  let kept := filterStep recs minAmount
  if dedupeOnCase then dropDupKeepFirst [] (sortBy kept) else kept

/-- The full reconciliation pass: tabular rows first, then PDF-derived
rows (src/app.py:203), followed by the merge-and-clean stage. -/
def reconcileFullWith (sortBy : List Rec → List Rec) (tab pdfRecs : List Rec)
    (minAmount : ℚ) (dedupeOnCase : Bool) : List Rec :=
  reconcileWith sortBy (tab ++ pdfRecs) minAmount dedupeOnCase

/-- All rows of a table whose `case_number` equals `c`. -/
def groupFor (c : Option String) (l : List Rec) : List Rec :=
  l.filter (fun r => r.case_number = c)

/-- Abstract syntax of the regular expressions appearing in the default
rule set, with one capture group.  Character classes are predicates;
case-insensitivity (`(?i)`) is folded into the predicates.  The patterns
contain no `^`/`$`, so the `re.MULTILINE` flag passed by the source is
inert for them. -/
inductive RE where
  | eps : RE
  | cls (p : Char → Bool) : RE
  | cat (a b : RE) : RE
  | alt (a b : RE) : RE
  | opt (a : RE) : RE
  | repSeq (a : RE) (lo : Nat) (hi : Option Nat) : RE
  | wordB : RE
  | grp (a : RE) : RE

/-- Matcher state: the character just before the current position (for
word boundaries), the remaining input, and the group-1 capture. -/
structure MSt where
  prev : Option Char
  rem : List Char
  cap : Option (List Char)

/-- Python word characters, for `\b`. -/
def isWordChar (c : Char) : Bool :=
  c.isAlphanum || c = '_'

/-- Whether a word boundary holds between `prev` and the next input
character. -/
def boundaryOk (prev : Option Char) (rem : List Char) : Bool :=
  ((prev.map isWordChar).getD false) != ((rem.head?.map isWordChar).getD false)

/-- Backtracking matcher returning every outcome in the order Python's
`re` engine explores them (left alternative first, greedy repetition
longest first); the head of the list is the match `re.search` commits
to at this position.  Fuel only bounds recursion depth; it is chosen
large enough for all concrete inputs below. -/
def reRun : Nat → RE → MSt → List MSt
  | 0, _, _ => []
  | _ + 1, RE.eps, s => [s]
  | _ + 1, RE.wordB, s => if boundaryOk s.prev s.rem then [s] else []
  | _ + 1, RE.cls p, s =>
    match s.rem with
    | [] => []
    | c :: cs => if p c then [⟨some c, cs, s.cap⟩] else []
  | n + 1, RE.cat a b, s => (reRun n a s).flatMap (reRun n b)
  | n + 1, RE.alt a b, s => reRun n a s ++ reRun n b s
  | n + 1, RE.opt a, s => reRun n a s ++ [s]
  | n + 1, RE.grp a, s =>
    (reRun n a s).map (fun s' => ⟨s'.prev, s'.rem, some (s.rem.take (s.rem.length - s'.rem.length))⟩)
  | n + 1, RE.repSeq a lo hi, s =>
    match hi with
    | some 0 => [s]
    | _ =>
      let more := (reRun n a s).flatMap (fun s' =>
        if s'.rem.length < s.rem.length then
          reRun n (RE.repSeq a (lo - 1) (hi.map (· - 1))) s'
        else [])
      if lo = 0 then more ++ [s] else more

/-- Fuel bound for every concrete text considered below. -/
def reFuel : Nat := 400

/-- Model of `re.search(pat, text, re.MULTILINE)` followed by
`m.group(1)`: try each start position left to right, and at the first
position with a match return the group-1 capture of the engine's first
outcome (a group that did not participate is modelled as empty; every
default pattern's group participates in any of its matches). -/
def reSearchFrom (re : RE) : Option Char → List Char → Option (List Char)
  | prev, cs =>
    match reRun reFuel re ⟨prev, cs, Option.none⟩ with
    | st :: _ => some (st.cap.getD [])
    | [] =>
      match cs with
      | [] => Option.none
      | c :: rest => reSearchFrom re (some c) rest

/-- Search the whole text from position 0. -/
def reSearch (re : RE) (text : String) : Option String :=
  (reSearchFrom re Option.none text.toList).map String.mk

/-- Case-insensitive literal character. -/
def ciChar (c : Char) : Char → Bool :=
  fun x => x.toLower = c.toLower

/-- Case-insensitive literal string. -/
def ciLit (s : String) : RE :=
  s.toList.foldr (fun c acc => RE.cat (RE.cls (ciChar c)) acc) RE.eps

/-- Sequencing of a pattern list. -/
def catList (l : List RE) : RE :=
  l.foldr RE.cat RE.eps

/-- Class `\s`. -/
def wsCls : Char → Bool := pyWs

/-- Class `\d` / `[0-9]`. -/
def digitCls : Char → Bool := Char.isDigit

/-- Class `(?i)[A-Z]` (any ASCII letter under case folding). -/
def alphaCls : Char → Bool := Char.isAlpha

/-- Class `(?i)[A-Z0-9\-]`. -/
def caseTokCls (c : Char) : Bool :=
  c.isAlpha || c.isDigit || c = '-'

/-- Class `(?i)[A-Za-z'\-\.]` of name words. -/
def nameTokCls (c : Char) : Bool :=
  c.isAlpha || c = '\x27' || c = '-' || c = '.'

/-- Class `(?i)[A-Za-z'\-\. ]` of labeled-name bodies. -/
def nameBodyCls (c : Char) : Bool :=
  nameTokCls c || c = ' '

/-- Class `(?i)[A-Za-z0-9'\.\- ]` of street bodies. -/
def streetCls (c : Char) : Bool :=
  c.isAlpha || c.isDigit || c = '\x27' || c = '.' || c = '-' || c = ' '

/-- Class `(?i)[A-Za-z\.\- ]` of city bodies. -/
def cityCls (c : Char) : Bool :=
  c.isAlpha || c = '.' || c = '-' || c = ' '

/-- Greedy `p*`. -/
def starC (p : Char → Bool) : RE :=
  RE.repSeq (RE.cls p) 0 Option.none

/-- Greedy bounded `p{lo,hi}`. -/
def repC (p : Char → Bool) (lo : Nat) (hi : Option Nat) : RE :=
  RE.repSeq (RE.cls p) lo hi

/-- AST of the first default `case_number` pattern
`(?i)case(?:\s*no\.?| number)?\s*[:\-]?\s*([A-Z0-9\-]{4,})`. -/
def casePat1 : RE :=
  catList [ciLit "case",
    RE.opt (RE.alt (catList [starC wsCls, ciLit "no", RE.opt (RE.cls (fun c => c = '.'))])
                   (ciLit " number")),
    starC wsCls,
    RE.opt (RE.cls (fun c => c = ':' || c = '-')),
    starC wsCls,
    RE.grp (repC caseTokCls 4 Option.none)]

/-- AST of the second default `case_number` pattern
`(?i)\b(\d{2,4}\-?[A-Z]?\-?\d{3,6}\-?\d{0,4})\b`. -/
def casePat2 : RE :=
  catList [RE.wordB,
    RE.grp (catList [repC digitCls 2 (some 4),
      RE.opt (RE.cls (fun c => c = '-')),
      RE.opt (RE.cls alphaCls),
      RE.opt (RE.cls (fun c => c = '-')),
      repC digitCls 3 (some 6),
      RE.opt (RE.cls (fun c => c = '-')),
      repC digitCls 0 (some 4)]),
    RE.wordB]

/-- AST of the first default `name` pattern
`(?i)(?:claimant|owner|defendant|plaintiff)\s*[:\-]\s*([A-Z][A-Za-z'\-\. ]{1,80})`. -/
def namePat1 : RE :=
  catList [RE.alt (ciLit "claimant")
             (RE.alt (ciLit "owner") (RE.alt (ciLit "defendant") (ciLit "plaintiff"))),
    starC wsCls,
    RE.cls (fun c => c = ':' || c = '-'),
    starC wsCls,
    RE.grp (RE.cat (RE.cls alphaCls) (repC nameBodyCls 1 (some 80)))]

/-- AST of the second default `name` pattern
`(?i)\b([A-Z][A-Za-z'\-\.]+(?:\s+[A-Z][A-Za-z'\-\.]+){0,3})\b`. -/
def namePat2 : RE :=
  catList [RE.wordB,
    RE.grp (catList [RE.cls alphaCls, repC nameTokCls 1 Option.none,
      RE.repSeq (catList [repC wsCls 1 Option.none, RE.cls alphaCls, repC nameTokCls 1 Option.none])
        0 (some 3)]),
    RE.wordB]

/-- AST of the first default `amount` pattern
`\$?\s*([0-9]{1,3}(?:,[0-9]{3})*(?:\.[0-9]{2})?)`. -/
def amountPat1 : RE :=
  catList [RE.opt (RE.cls (fun c => c = '$')),
    starC wsCls,
    RE.grp (catList [repC digitCls 1 (some 3),
      RE.repSeq (RE.cat (RE.cls (fun c => c = ',')) (repC digitCls 3 (some 3))) 0 Option.none,
      RE.opt (RE.cat (RE.cls (fun c => c = '.')) (repC digitCls 2 (some 2)))])]

/-- AST of the second default `amount` pattern
`(?i)amount\s*[:\-]?\s*\$?\s*([0-9]{1,3}(?:,[0-9]{3})*(?:\.[0-9]{2})?)`. -/
def amountPat2 : RE :=
  catList [ciLit "amount",
    starC wsCls,
    RE.opt (RE.cls (fun c => c = ':' || c = '-')),
    starC wsCls,
    RE.opt (RE.cls (fun c => c = '$')),
    starC wsCls,
    RE.grp (catList [repC digitCls 1 (some 3),
      RE.repSeq (RE.cat (RE.cls (fun c => c = ',')) (repC digitCls 3 (some 3))) 0 Option.none,
      RE.opt (RE.cat (RE.cls (fun c => c = '.')) (repC digitCls 2 (some 2)))])]

/-- AST of the default `address` pattern
`(?i)\b(\d{1,5}\s+[A-Za-z0-9'\.\- ]+,\s*[A-Za-z\.\- ]+,\s*[A-Z]{2}\s*\d{5}(?:-\d{4})?)\b`. -/
def addressPat : RE :=
  catList [RE.wordB,
    RE.grp (catList [repC digitCls 1 (some 5),
      repC wsCls 1 Option.none,
      repC streetCls 1 Option.none,
      RE.cls (fun c => c = ','),
      starC wsCls,
      repC cityCls 1 Option.none,
      RE.cls (fun c => c = ','),
      starC wsCls,
      repC alphaCls 2 (some 2),
      starC wsCls,
      repC digitCls 5 (some 5),
      RE.opt (RE.cat (RE.cls (fun c => c = '-')) (repC digitCls 4 (some 4)))]),
    RE.wordB]

/-- The built-in `DEFAULT_RULES` (src/app.py:49-65) with patterns as
ASTs, in the dict's insertion (iteration) order. -/
def DEFAULT_RULES : List (String × List RE) :=
  [("case_number", [casePat1, casePat2]),
   ("name", [namePat1, namePat2]),
   ("amount", [amountPat1, amountPat2]),
   ("address", [addressPat])]

/-- Inner loop of `extract_with_rules` for one field: try each pattern in
declared order and return the stripped group-1 capture of the first
pattern that matches anywhere; `none` when no pattern matches. -/
def resolveField (pats : List RE) (text : String) : Option String :=
  match pats with
  | [] => Option.none
  | p :: ps =>
    match reSearch p text with
    | some capture => some (pyStrip capture)
    | Option.none => resolveField ps text

/-- Update or append a key in the output dict. -/
def setKey (d : List (String × RawVal)) (k : String) (v : RawVal) : List (String × RawVal) :=
  if d.any (fun kv => kv.1 = k) then
    d.map (fun kv => if kv.1 = k then (k, v) else kv)
  else d ++ [(k, v)]

/-- Read a key, absent values defaulting to `None` as Python's preset
dict guarantees for the canonical keys. -/
def lookupD (d : List (String × RawVal)) (k : String) : RawVal :=
  match d.find? (fun kv => kv.1 = k) with
  | some kv => kv.2
  | Option.none => RawVal.none

/-- Embedding of `extract_with_rules` (src/app.py:76-85): preset the four
canonical keys to `None`; for each field of the rule set store the first
match (if any); finally set `out["amount"]` to the parsed value of
`out["amount_raw"]` — note the source reads `amount_raw`, a key no
default rule ever writes. -/
def extract_with_rules (rules : List (String × List RE)) (text : String) :
    List (String × RawVal) :=
  let init : List (String × RawVal) :=
    [("case_number", RawVal.none), ("name", RawVal.none),
     ("amount_raw", RawVal.none), ("address", RawVal.none)]
  let afterLoop := rules.foldl (fun d kp =>
    match resolveField kp.2 text with
    | some v => setKey d kp.1 (RawVal.str v)
    | Option.none => d) init
  setKey afterLoop "amount" (canonOfParse (parse_amount_to_float (lookupD afterLoop "amount_raw")))

/-- A parsed JSON value, the result type of `json.loads`. -/
inductive Json where
  | null : Json
  | bool (b : Bool) : Json
  | num (q : ℚ) : Json
  | str (s : String) : Json
  | arr (xs : List Json) : Json
  | obj (kvs : List (String × Json)) : Json
deriving Repr

/-- Source text of the first default `case_number` pattern. -/
def caseP1s : String := "(?i)case(?:\\s*no\\.?| number)?\\s*[:\\-]?\\s*([A-Z0-9\\-]{4,})"

/-- Source text of the second default `case_number` pattern. -/
def caseP2s : String := "(?i)\\b(\\d{2,4}\\-?[A-Z]?\\-?\\d{3,6}\\-?\\d{0,4})\\b"

/-- Source text of the first default `name` pattern. -/
def nameP1s : String :=
  "(?i)(?:claimant|owner|defendant|plaintiff)\\s*[:\\-]\\s*([A-Z][A-Za-z\x27\\-\\. ]{1,80})"

/-- Source text of the second default `name` pattern. -/
def nameP2s : String :=
  "(?i)\\b([A-Z][A-Za-z\x27\\-\\.]+(?:\\s+[A-Z][A-Za-z\x27\\-\\.]+){0,3})\\b"

/-- Source text of the first default `amount` pattern (the loose
currency-symbol-led one). -/
def amountP1s : String := "\\$?\\s*([0-9]{1,3}(?:,[0-9]{3})*(?:\\.[0-9]{2})?)"

/-- Source text of the second default `amount` pattern (the labeled
`Amount:` one). -/
def amountP2s : String :=
  "(?i)amount\\s*[:\\-]?\\s*\\$?\\s*([0-9]{1,3}(?:,[0-9]{3})*(?:\\.[0-9]{2})?)"

/-- Source text of the default `address` pattern. -/
def addressPs : String :=
  "(?i)\\b(\\d{1,5}\\s+[A-Za-z0-9\x27\\.\\- ]+,\\s*[A-Za-z\\.\\- ]+,\\s*[A-Z]{2}\\s*\\d{5}(?:-\\d{4})?)\\b"

/-- `DEFAULT_RULES` as the JSON value its textual form parses to
(src/app.py:49-65), keys in insertion order. -/
def defaultRulesJson : Json :=
  Json.obj [("case_number", Json.arr [Json.str caseP1s, Json.str caseP2s]),
            ("name", Json.arr [Json.str nameP1s, Json.str nameP2s]),
            ("amount", Json.arr [Json.str amountP1s, Json.str amountP2s]),
            ("address", Json.arr [Json.str addressPs])]

/-- Embedding of the rules-loading block (src/app.py:153-157).  Its input
is the outcome of `json.loads` on the configuration text (`none` models
a raised parse error).  The `Bool` is the warning surfaced via
`st.sidebar.error`: a parse failure warns and falls back to
`DEFAULT_RULES`; any successfully parsed JSON value is used as-is,
without schema validation. -/
def loadRules : Option Json → Json × Bool
  | Option.none => (defaultRulesJson, true)
  | some j => (j, false)

/-- Field lookup in a JSON object rendering of a rule set. -/
def jsonLookup (j : Json) (k : String) : Option Json :=
  match j with
  | Json.obj kvs => (kvs.find? (fun kv => kv.1 = k)).map (fun kv => kv.2)
  | _ => Option.none


/-- Model of `for pat in patterns` (src/app.py:79) at the level of the
loaded JSON value, covering exactly the failures that occur before any
pattern is consulted: a number, boolean or null is not iterable and
raises `TypeError` immediately; an array yields its elements, a string
its characters and an object its keys.  What `re.search`/`m.group(1)`
then do with a yielded non-string or malformed pattern depends on the
page text and the pattern contents and is outside this model. -/
def patIter : Json → Except Unit (List Json)
  | Json.arr xs => Except.ok xs
  | Json.str s => Except.ok (s.toList.map (fun c => Json.str (String.mk [c])))
  | Json.obj kvs => Except.ok (kvs.map (fun kv => Json.str kv.1))
  | _ => Except.error ()

/-- Model of the iteration `for key, patterns in rules.items(): for pat
in patterns` inside `extract_with_rules` (src/app.py:78-79): raises when
the loaded value has no `.items()` (is not an object) or some field
value is not iterable; otherwise yields each field's iterated pattern
candidates. -/
def rulesIter : Json → Except Unit (List (String × List Json))
  | Json.obj kvs =>
    kvs.foldr (fun kv acc =>
      match patIter kv.2, acc with
      | Except.ok ps, Except.ok l => Except.ok ((kv.1, ps) :: l)
      | _, _ => Except.error ()) (Except.ok [])
  | _ => Except.error ()

/-- One byte of document input. -/
def ByteSeq : Type := List Nat

/-- Whether a byte is a UTF-8 continuation byte. -/
def contB (b : Nat) : Bool :=
  0x80 ≤ b && b ≤ 0xBF

/-- Model of Python `bytes.decode("utf-8", errors="ignore")`: standard
UTF-8 decoding (overlong forms, surrogates and out-of-range values
rejected); on an invalid sequence the offending lead byte is dropped and
decoding continues.  It never fails, and input with no valid sequence
decodes to the empty string.  The fuel is the input length: every step
consumes at least one byte. -/
def utf8IgnoreAux : Nat → List Nat → List Char
  | 0, _ => []
  | _ + 1, [] => []
  | n + 1, b :: r =>
    if b ≤ 0x7F then Char.ofNat b :: utf8IgnoreAux n r
    else if 0xC2 ≤ b && b ≤ 0xDF then
      match r with
      | b2 :: r2 =>
        if contB b2 then Char.ofNat ((b - 0xC0) * 0x40 + (b2 - 0x80)) :: utf8IgnoreAux n r2
        else utf8IgnoreAux n r
      | [] => []
    else if 0xE0 ≤ b && b ≤ 0xEF then
      match r with
      | b2 :: b3 :: r3 =>
        if (if b = 0xE0 then 0xA0 ≤ b2 && b2 ≤ 0xBF
            else if b = 0xED then 0x80 ≤ b2 && b2 ≤ 0x9F
            else contB b2) && contB b3 then
          Char.ofNat ((b - 0xE0) * 0x1000 + (b2 - 0x80) * 0x40 + (b3 - 0x80)) :: utf8IgnoreAux n r3
        else utf8IgnoreAux n r
      | _ => utf8IgnoreAux n r
    else if 0xF0 ≤ b && b ≤ 0xF4 then
      match r with
      | b2 :: b3 :: b4 :: r4 =>
        if (if b = 0xF0 then 0x90 ≤ b2 && b2 ≤ 0xBF
            else if b = 0xF4 then 0x80 ≤ b2 && b2 ≤ 0x8F
            else contB b2) && contB b3 && contB b4 then
          Char.ofNat ((b - 0xF0) * 0x40000 + (b2 - 0x80) * 0x1000 + (b3 - 0x80) * 0x40 + (b4 - 0x80))
            :: utf8IgnoreAux n r4
        else utf8IgnoreAux n r
      | _ => utf8IgnoreAux n r
    else utf8IgnoreAux n r

/-- UTF-8 decode with errors ignored. -/
def utf8Ignore (bs : List Nat) : List Char :=
  utf8IgnoreAux bs.length bs

/-- Best-effort decode of raw bytes, the degraded fallback of
`pdf_to_texts` (src/app.py:116-119). -/
def bytesDecodeIgnore (bs : List Nat) : String :=
  String.mk (utf8Ignore bs)

/-- The external capabilities `pdf_to_texts` relies on, with the
interface the specification assigns them: the OCR backend
(`pdf2image.convert_from_path` + `pytesseract.image_to_string`, one text
per page image) and the text-layer extractor (`pdfplumber`, a page-text
sequence or a failure of the whole document, each page's `extract_text()
or ""` already folded in). -/
structure PdfEnv where
  ocrAvailable : Bool
  plumberAvailable : Bool
  ocr : List Nat → List String
  textLayer : List Nat → Option (List String)

/-- Embedding of `pdf_to_texts` (src/app.py:87-120): the OCR path is
taken exclusively when requested and available; otherwise the text layer
is used when `pdfplumber` is importable and the document opens; any
remaining case falls back to a single-element best-effort decode of the
raw bytes. -/
def pdf_to_texts (env : PdfEnv) (fileBytes : List Nat) (use_ocr : Bool) : List String :=
  if use_ocr && env.ocrAvailable then
    env.ocr fileBytes
  else if env.plumberAvailable then
    match env.textLayer fileBytes with
    | some ts => ts
    | Option.none => [bytesDecodeIgnore fileBytes]
  else
    [bytesDecodeIgnore fileBytes]

/-- A retained record with a numeric amount of 9999. -/
def rec9999 : Rec :=
  ⟨some "C-1", Option.none, RawVal.num (PyNum.fin 9999), RawVal.none,
    Option.none, Option.none, Option.none⟩

/-- A record whose amount is absent. -/
def recAbsent : Rec :=
  ⟨some "C-2", Option.none, RawVal.none, RawVal.none, Option.none, Option.none, Option.none⟩

/-- A record with an absent case number and amount 5. -/
def recNoCaseA : Rec :=
  ⟨Option.none, Option.none, RawVal.num (PyNum.fin 5), RawVal.none,
    Option.none, Option.none, Option.none⟩

/-- A second record with an absent case number and amount 3. -/
def recNoCaseB : Rec :=
  ⟨Option.none, Option.none, RawVal.num (PyNum.fin 3), RawVal.none,
    Option.none, Option.none, Option.none⟩

/-- A tabular record whose amount cell is the string "inf". -/
def recInf : Rec :=
  ⟨some "C-INF", Option.none, RawVal.str "inf", RawVal.none,
    Option.none, Option.none, Option.none⟩

/-- Two records with distinct case numbers and equal amounts. -/
def recTieX : Rec :=
  ⟨some "X", Option.none, RawVal.num (PyNum.fin 5), RawVal.none,
    Option.none, Option.none, Option.none⟩

/-- The second equal-amount record. -/
def recTieY : Rec :=
  ⟨some "Y", Option.none, RawVal.num (PyNum.fin 5), RawVal.none,
    Option.none, Option.none, Option.none⟩

/-- Page text holding both a labeled case number and a bare
alphanumeric-with-dashes token. -/
def tCase : String := "Id 20-55512\nCase Number: ABC-123"

/-- Page text holding a loose dollar figure before a labeled amount. -/
def tAmount : String := "Fee $500 due\nAmount: $9,999.00"

/-- A configuration that parses as JSON but is not a field-to-pattern-list
mapping: the pattern list of `case_number` is the number 3, which the
extraction loop cannot even begin to iterate. -/
def badRulesJson : Json := Json.obj [("case_number", Json.num 3)]

/-- A concrete capability environment: no OCR backend, text-layer
extraction available and succeeding with one page. -/
def envTextLayer : PdfEnv :=
  ⟨false, true, fun _ => [], fun _ => some ["page one"]⟩


theorem mem_insStable {z x : Rec} {l : List Rec} : z ∈ insStable x l ↔ z = x ∨ z ∈ l := by
  induction l with
  | nil => simp [insStable]
  | cons y ys ih =>
    simp only [insStable]
    by_cases hc : keyQ y ≤ keyQ x
    · rw [if_pos hc]
      simp only [List.mem_cons]
    · rw [if_neg hc]
      simp only [List.mem_cons, ih]
      tauto

theorem insStable_pairwise {x : Rec} {l : List Rec}
    (h : l.Pairwise (fun a b => keyQ b ≤ keyQ a)) :
    (insStable x l).Pairwise (fun a b => keyQ b ≤ keyQ a) := by
  induction l with
  | nil => simp [insStable]
  | cons y ys ih =>
    simp only [insStable]
    rcases List.pairwise_cons.mp h with ⟨hy, hys⟩
    by_cases hc : keyQ y ≤ keyQ x
    · rw [if_pos hc]
      refine List.pairwise_cons.mpr ⟨?_, h⟩
      intro z hz
      rcases List.mem_cons.mp hz with rfl | hz'
      · exact hc
      · exact le_trans (hy z hz') hc
    · rw [if_neg hc]
      have hx : keyQ x ≤ keyQ y := le_of_not_le hc
      refine List.pairwise_cons.mpr ⟨?_, ih hys⟩
      intro z hz
      rcases mem_insStable.mp hz with rfl | hz'
      · exact hx
      · exact hy z hz'

theorem sortStable_pairwise (l : List Rec) :
    (sortStable l).Pairwise (fun a b => keyQ b ≤ keyQ a) := by
  induction l with
  | nil => simp [sortStable]
  | cons x xs ih => exact insStable_pairwise ih

theorem sortStable_perm (l : List Rec) : (sortStable l).Perm l := by
  induction l with
  | nil => simp [sortStable]
  | cons x xs ih =>
    have h1 : (insStable x (sortStable xs)).Perm (x :: sortStable xs) := by
      clear ih
      induction sortStable xs with
      | nil => simp [insStable]
      | cons y ys ih2 =>
        simp only [insStable]
        by_cases hc : keyQ y ≤ keyQ x
        · rw [if_pos hc]
        · rw [if_neg hc]
          exact (ih2.cons y).trans (List.Perm.swap x y ys)
    exact h1.trans (ih.cons x)

theorem sortStable_isDescSort : IsDescSort sortStable :=
  fun l => ⟨sortStable_perm l, sortStable_pairwise l⟩

theorem mem_insAnti {z x : Rec} {l : List Rec} : z ∈ insAnti x l ↔ z = x ∨ z ∈ l := by
  induction l with
  | nil => simp [insAnti]
  | cons y ys ih =>
    simp only [insAnti]
    by_cases hc : keyQ y < keyQ x
    · rw [if_pos hc]
      simp only [List.mem_cons]
    · rw [if_neg hc]
      simp only [List.mem_cons, ih]
      tauto

theorem insAnti_pairwise {x : Rec} {l : List Rec}
    (h : l.Pairwise (fun a b => keyQ b ≤ keyQ a)) :
    (insAnti x l).Pairwise (fun a b => keyQ b ≤ keyQ a) := by
  induction l with
  | nil => simp [insAnti]
  | cons y ys ih =>
    simp only [insAnti]
    rcases List.pairwise_cons.mp h with ⟨hy, hys⟩
    by_cases hc : keyQ y < keyQ x
    · rw [if_pos hc]
      refine List.pairwise_cons.mpr ⟨?_, h⟩
      intro z hz
      rcases List.mem_cons.mp hz with rfl | hz'
      · exact le_of_lt hc
      · exact le_trans (hy z hz') (le_of_lt hc)
    · rw [if_neg hc]
      have hx : keyQ x ≤ keyQ y := not_lt.mp hc
      refine List.pairwise_cons.mpr ⟨?_, ih hys⟩
      intro z hz
      rcases mem_insAnti.mp hz with rfl | hz'
      · exact hx
      · exact hy z hz'

theorem sortAnti_pairwise (l : List Rec) :
    (sortAnti l).Pairwise (fun a b => keyQ b ≤ keyQ a) := by
  induction l with
  | nil => simp [sortAnti]
  | cons x xs ih => exact insAnti_pairwise ih

theorem sortAnti_perm (l : List Rec) : (sortAnti l).Perm l := by
  induction l with
  | nil => simp [sortAnti]
  | cons x xs ih =>
    have h1 : (insAnti x (sortAnti xs)).Perm (x :: sortAnti xs) := by
      clear ih
      induction sortAnti xs with
      | nil => simp [insAnti]
      | cons y ys ih2 =>
        simp only [insAnti]
        by_cases hc : keyQ y < keyQ x
        · rw [if_pos hc]
        · rw [if_neg hc]
          exact (ih2.cons y).trans (List.Perm.swap x y ys)
    exact h1.trans (ih.cons x)

theorem sortAnti_isDescSort : IsDescSort sortAnti :=
  fun l => ⟨sortAnti_perm l, sortAnti_pairwise l⟩

theorem groupFor_cons_pos {x : Rec} {c : Option String} (l : List Rec) (hx : x.case_number = c) :
    groupFor c (x :: l) = x :: groupFor c l := by
  simp [groupFor, List.filter, hx]

theorem groupFor_cons_neg {x : Rec} {c : Option String} (l : List Rec) (hx : ¬ x.case_number = c) :
    groupFor c (x :: l) = groupFor c l := by
  simp [groupFor, List.filter, hx]

theorem groupFor_dropDup (c : Option String) (s : List Rec) (seen : List (Option String)) :
    groupFor c (dropDupKeepFirst seen s) =
      if c ∈ seen then [] else (s.find? (fun r => r.case_number = c)).toList := by
  induction s generalizing seen with
  | nil =>
    simp only [dropDupKeepFirst, groupFor, List.filter_nil, List.find?]
    split <;> rfl
  | cons x xs ih =>
    simp only [dropDupKeepFirst]
    by_cases hmem : x.case_number ∈ seen
    · rw [if_pos hmem, ih]
      by_cases hc : c ∈ seen
      · rw [if_pos hc, if_pos hc]
      · rw [if_neg hc, if_neg hc]
        have hxc : ¬ x.case_number = c := fun h => hc (h ▸ hmem)
        rw [List.find?_cons_of_neg _ (by simp [hxc])]
    · rw [if_neg hmem]
      by_cases hxc : x.case_number = c
      · rw [groupFor_cons_pos _ hxc, ih]
        have hcseen : ¬ c ∈ seen := fun h => hmem (hxc ▸ h)
        rw [if_pos (by simp [← hxc]), if_neg hcseen]
        rw [List.find?_cons_of_pos _ (by simp [hxc])]
        rfl
      · rw [groupFor_cons_neg _ hxc, ih]
        have hiff : (c ∈ x.case_number :: seen) ↔ c ∈ seen := by
          simp [List.mem_cons]
          intro h
          exact absurd h.symm hxc
        by_cases hc : c ∈ seen
        · rw [if_pos (hiff.mpr hc), if_pos hc]
        · rw [if_neg (fun h => hc (hiff.mp h)), if_neg hc]
          rw [List.find?_cons_of_neg _ (by simp [hxc])]

theorem dropDup_sublist (s : List Rec) (seen : List (Option String)) :
    (dropDupKeepFirst seen s).Sublist s := by
  induction s generalizing seen with
  | nil => simp [dropDupKeepFirst]
  | cons x xs ih =>
    simp only [dropDupKeepFirst]
    by_cases hmem : x.case_number ∈ seen
    · rw [if_pos hmem]
      exact (ih seen).cons x
    · rw [if_neg hmem]
      exact (ih (x.case_number :: seen)).cons₂ x

theorem dropDup_keys (s : List Rec) (seen : List (Option String)) :
    (∀ r ∈ dropDupKeepFirst seen s, r.case_number ∉ seen) ∧
      (dropDupKeepFirst seen s).Pairwise (fun a b => a.case_number ≠ b.case_number) := by
  induction s generalizing seen with
  | nil => simp [dropDupKeepFirst]
  | cons x xs ih =>
    simp only [dropDupKeepFirst]
    by_cases hmem : x.case_number ∈ seen
    · rw [if_pos hmem]
      exact ih seen
    · rw [if_neg hmem]
      rcases ih (x.case_number :: seen) with ⟨hnotin, hpw⟩
      constructor
      · intro r hr
        rcases List.mem_cons.mp hr with rfl | hr'
        · exact hmem
        · intro hrs
          exact hnotin r hr' (List.mem_cons_of_mem _ hrs)
      · refine List.pairwise_cons.mpr ⟨?_, hpw⟩
        intro z hz heq
        refine hnotin z hz ?_
        rw [← heq]
        exact List.mem_cons_self _ _

theorem dropDup_of_distinct (s : List Rec) :
    ∀ seen : List (Option String),
      s.Pairwise (fun a b => a.case_number ≠ b.case_number) →
      (∀ r ∈ s, r.case_number ∉ seen) →
      dropDupKeepFirst seen s = s := by
  induction s with
  | nil => intro seen _ _; simp [dropDupKeepFirst]
  | cons x xs ih =>
    intro seen hpw hseen
    rcases List.pairwise_cons.mp hpw with ⟨hx, hxs⟩
    simp only [dropDupKeepFirst]
    rw [if_neg (hseen x (List.mem_cons_self _ _))]
    congr 1
    refine ih (x.case_number :: seen) hxs ?_
    intro r hr habs
    rcases List.mem_cons.mp habs with heq | hin
    · exact hx r hr heq.symm
    · exact hseen r (List.mem_cons_of_mem _ hr) hin

theorem filterStep_of_all (l : List Rec) (m : ℚ)
    (h : ∀ r ∈ l, (PyNum.fin m).toKey ≤ fillnaKey (amountNum r)) : filterStep l m = l := by
  simp only [filterStep]
  rw [List.filter_eq_self]
  intro r hr
  simpa using h r hr

theorem find?_max_of_sorted {p : Rec → Bool} {s : List Rec} {r : Rec}
    (hs : s.Pairwise (fun a b => keyQ b ≤ keyQ a)) (hfind : s.find? p = some r) :
    ∀ g ∈ s, p g = true → keyQ g ≤ keyQ r := by
  induction s with
  | nil => simp [List.find?] at hfind
  | cons x xs ih =>
    rcases List.pairwise_cons.mp hs with ⟨hx, hxs⟩
    intro g hg hpg
    by_cases hpx : p x = true
    · rw [List.find?_cons_of_pos _ hpx] at hfind
      simp only [Option.some.injEq] at hfind
      subst hfind
      rcases List.mem_cons.mp hg with rfl | hg'
      · exact le_refl _
      · exact hx g hg'
    · rw [List.find?_cons_of_neg _ (by simpa using hpx)] at hfind
      rcases List.mem_cons.mp hg with rfl | hg'
      · exact absurd hpg hpx
      · exact ih hxs hfind g hg' hpg

/-- C1: with dedupe enabled, and for every sort behavior meeting the
`sort_values` contract, each case-number group of retained records is
collapsed to exactly one record holding the group's maximal numeric
amount — amended twice against the original claim: pandas also
collapses the group of records with an absent case_number (all missing
keys compare equal in `drop_duplicates`), and among equal-amount
candidates the survivor is whichever the sort places first, which the
default unstable `kind="quicksort"` does not pin to the earliest record
of the concatenated sequence. -/
theorem C1_dedupe_keeps_single_max (f : List Rec → List Rec) (hf : IsDescSort f)
    (tab pdfRecs : List Rec) (m : ℚ) (c : Option String) :
    (groupFor c (filterStep (tab ++ pdfRecs) m) = []
      ∧ groupFor c (reconcileFullWith f tab pdfRecs m true) = [])
    ∨ ∃ r, groupFor c (reconcileFullWith f tab pdfRecs m true) = [r]
        ∧ r ∈ groupFor c (filterStep (tab ++ pdfRecs) m)
        ∧ ∀ g ∈ groupFor c (filterStep (tab ++ pdfRecs) m), keyQ g ≤ keyQ r := by
  obtain ⟨hperm, hsort⟩ := hf (filterStep (tab ++ pdfRecs) m)
  have hres : groupFor c (reconcileFullWith f tab pdfRecs m true)
      = ((f (filterStep (tab ++ pdfRecs) m)).find? (fun r => r.case_number = c)).toList := by
    show groupFor c (dropDupKeepFirst [] (f (filterStep (tab ++ pdfRecs) m))) = _
    rw [groupFor_dropDup, if_neg (List.not_mem_nil c)]
  cases hfind : (f (filterStep (tab ++ pdfRecs) m)).find? (fun r => r.case_number = c) with
  | none =>
    left
    have hnone := List.find?_eq_none.mp hfind
    constructor
    · rw [groupFor, List.filter_eq_nil_iff]
      intro a ha
      simpa using hnone a (hperm.symm.subset ha)
    · rw [hres, hfind]
      rfl
  | some r =>
    right
    refine ⟨r, by rw [hres, hfind]; rfl, ?_, ?_⟩
    · have hrmem : r ∈ f (filterStep (tab ++ pdfRecs) m) := List.mem_of_find?_eq_some hfind
      have hrc : r.case_number = c := by simpa using List.find?_some hfind
      exact List.mem_filter.mpr ⟨hperm.subset hrmem, by simpa using hrc⟩
    · intro g hg
      have hg' := List.mem_filter.mp hg
      exact find?_max_of_sorted hsort hfind g (hperm.symm.subset hg'.1) hg'.2

/-- C1 witness: the characterization applied to a singleton absent-case
table with the stable sort instance. -/
theorem C1_dedupe_keeps_single_max_witness :
    (groupFor Option.none (filterStep ([recNoCaseA] ++ []) 0) = []
      ∧ groupFor Option.none (reconcileFullWith sortStable [recNoCaseA] [] 0 true) = [])
    ∨ ∃ r, groupFor Option.none (reconcileFullWith sortStable [recNoCaseA] [] 0 true) = [r]
        ∧ r ∈ groupFor Option.none (filterStep ([recNoCaseA] ++ []) 0)
        ∧ ∀ g ∈ groupFor Option.none (filterStep ([recNoCaseA] ++ []) 0), keyQ g ≤ keyQ r :=
  C1_dedupe_keeps_single_max sortStable sortStable_isDescSort [recNoCaseA] [] 0 Option.none

/-- C1 counterexample: two records with absent case numbers both survive
the filter, yet dedupe collapses them to one — under the stable and the
anti-stable realization of the sort contract alike (their amounts
differ, so every admissible sort orders them the same way) — refuting
the claim that records with an absent case_number are never deduplicated
against each other. -/
theorem C1_absent_case_collapse :
    IsDescSort sortStable ∧ IsDescSort sortAnti
    ∧ filterStep [recNoCaseA, recNoCaseB] 0 = [recNoCaseA, recNoCaseB]
    ∧ reconcileFullWith sortStable [recNoCaseA, recNoCaseB] [] 0 true = [recNoCaseA]
    ∧ reconcileFullWith sortAnti [recNoCaseA, recNoCaseB] [] 0 true = [recNoCaseA] :=
  ⟨sortStable_isDescSort, sortAnti_isDescSort, by decide, by decide, by decide⟩

/-- C2: the filter retains a row exactly when its parsed amount, absent
treated as 0, is at least min_amount; a 9999 row is dropped at threshold
10000, and an absent-amount row is dropped for every positive
threshold. -/
theorem C2_min_amount_filter :
    (∀ (recs : List Rec) (m : ℚ) (r : Rec),
       r ∈ filterStep recs m ↔
         r ∈ recs ∧ (PyNum.fin m).toKey ≤ fillnaKey (parse_amount_to_float r.amount))
    ∧ filterStep [rec9999] 10000 = []
    ∧ (∀ m : ℚ, 0 < m → filterStep [recAbsent] m = []) := by
  refine ⟨?_, by decide, ?_⟩
  · intro recs m r
    simp [filterStep, List.mem_filter, amountNum]
  · intro m hm
    simp only [filterStep, recAbsent, amountNum, parse_amount_to_float, List.filter]
    rw [decide_eq_false]
    simp only [fillnaKey, Option.getD, PyNum.toKey, WithBot.coe_le_coe, WithTop.coe_le_coe]
    exact not_le.mpr hm

/-- C2 witness: the absent-amount clause applied at threshold 1. -/
theorem C2_min_amount_filter_witness : filterStep [recAbsent] 1 = [] :=
  C2_min_amount_filter.2.2 1 (by norm_num)

/-- C3 (code bug evaluation): on the text `"$500"` the amount field's
first pattern matches with capture `"500"`, yet the extracted record
carries an absent amount, because line 84 recomputes `out["amount"]`
from the never-written `amount_raw` key; the labeled case-number
example of the claim does hold. -/
theorem C3_amount_capture_discarded :
    resolveField [amountPat1, amountPat2] "$500" = some "500"
    ∧ lookupD (extract_with_rules DEFAULT_RULES "$500") "amount" = RawVal.none
    ∧ lookupD (extract_with_rules DEFAULT_RULES "$500") "amount_raw" = RawVal.none
    ∧ lookupD (extract_with_rules DEFAULT_RULES tCase) "case_number" = RawVal.str "ABC-123" := by
  refine ⟨by decide, by decide, by decide, by decide⟩

/-- C4: a configuration text that fails to parse as JSON falls back to
the built-in default rules with a warning; any successfully parsed JSON
is used exactly as-is with no warning — there is no schema validation —
and the default rules are a well-formed field-to-pattern-list mapping
the extraction loop accepts.  Whether extraction survives a
non-conforming configuration depends on the value shapes: the
counterexample shows one that always aborts. -/
theorem C4_parse_failure_falls_back :
    loadRules Option.none = (defaultRulesJson, true)
    ∧ (∀ j : Json, loadRules (some j) = (j, false))
    ∧ rulesIter defaultRulesJson
        = Except.ok [("case_number", [Json.str caseP1s, Json.str caseP2s]),
            ("name", [Json.str nameP1s, Json.str nameP2s]),
            ("amount", [Json.str amountP1s, Json.str amountP2s]),
            ("address", [Json.str addressPs])] :=
  ⟨rfl, fun _ => rfl, rfl⟩

/-- C4 counterexample: a configuration that is valid JSON but maps a
field to a non-iterable pattern value is used as-is with no warning —
not replaced by the default — and the extraction loop raises on it
before consulting any pattern, refuting both the schema-fallback and
the never-aborts parts of the claim. -/
theorem C4_schema_not_validated :
    (loadRules (some badRulesJson)).1 = badRulesJson
    ∧ loadRules (some badRulesJson) ≠ (defaultRulesJson, true)
    ∧ rulesIter (loadRules (some badRulesJson)).1 = Except.error () := by
  refine ⟨rfl, ?_, rfl⟩
  simp [loadRules]

/-- C5: page-text acquisition follows the strict fallback chain — OCR
exclusively when requested and available, else the text layer when it is
available and the document opens, else a single-element best-effort
decode — always produces exactly one path's output, and fully
undecodable bytes decode to the empty string. -/
theorem C5_page_text_fallback_chain (env : PdfEnv) (b : List Nat) (u : Bool) :
    (u = true → env.ocrAvailable = true → pdf_to_texts env b u = env.ocr b)
    ∧ ((u = false ∨ env.ocrAvailable = false) → env.plumberAvailable = true →
        ∀ ts, env.textLayer b = some ts → pdf_to_texts env b u = ts)
    ∧ ((u = false ∨ env.ocrAvailable = false) →
        (env.plumberAvailable = false ∨ env.textLayer b = Option.none) →
        pdf_to_texts env b u = [bytesDecodeIgnore b])
    ∧ (pdf_to_texts env b u = env.ocr b
        ∨ (∃ ts, env.textLayer b = some ts ∧ pdf_to_texts env b u = ts)
        ∨ pdf_to_texts env b u = [bytesDecodeIgnore b])
    ∧ bytesDecodeIgnore [255, 254] = "" := by
  refine ⟨?_, ?_, ?_, ?_, by decide⟩
  · intro hu ho
    simp [pdf_to_texts, hu, ho]
  · intro hor hp ts ht
    have hfalse : (u && env.ocrAvailable) = false := by
      rcases hor with h | h <;> simp [h]
    simp [pdf_to_texts, hfalse, hp, ht]
  · intro hor hp2
    have hfalse : (u && env.ocrAvailable) = false := by
      rcases hor with h | h <;> simp [h]
    rcases hp2 with h | h
    · simp [pdf_to_texts, hfalse, h]
    · by_cases hpl : env.plumberAvailable = true
      · simp [pdf_to_texts, hfalse, hpl, h]
      · simp [pdf_to_texts, hfalse, Bool.not_eq_true _ ▸ hpl]
  · cases hob : (u && env.ocrAvailable) with
    | true =>
      left
      simp [pdf_to_texts, hob]
    | false =>
      by_cases hpl : env.plumberAvailable = true
      · cases ht : env.textLayer b with
        | none =>
          right; right
          simp [pdf_to_texts, hob, hpl, ht]
        | some ts =>
          right; left
          exact ⟨ts, rfl, by simp [pdf_to_texts, hob, hpl, ht]⟩
      · right; right
        have hpl' : env.plumberAvailable = false := by
          cases hv : env.plumberAvailable
          · rfl
          · exact absurd hv hpl
        simp [pdf_to_texts, hob, hpl']

/-- C5 witness: OCR requested but unavailable, text layer succeeds, so
the output equals the text-layer pages. -/
theorem C5_page_text_fallback_chain_witness :
    pdf_to_texts envTextLayer [] true = ["page one"] :=
  (C5_page_text_fallback_chain envTextLayer [] true).2.1 (Or.inr rfl) rfl ["page one"] rfl

/-- C6: the default amount rules list the loose currency pattern before
the labeled one — both as JSON text and as the pattern list the loop
walks — and on a page with an early bare dollar figure and a later
labeled amount, extraction resolves to the early figure, while the
labeled pattern alone would have produced the labeled value. -/
theorem C6_amount_pattern_order :
    jsonLookup defaultRulesJson "amount" = some (Json.arr [Json.str amountP1s, Json.str amountP2s])
    ∧ (DEFAULT_RULES.find? (fun kv => kv.1 = "amount")).map (fun kv => kv.2)
        = some [amountPat1, amountPat2]
    ∧ resolveField [amountPat1, amountPat2] tAmount = some "500"
    ∧ resolveField [amountPat2] tAmount = some "9,999.00" := by
  refine ⟨rfl, rfl, by decide, by decide⟩

/-- C7: the amount parser strips the currency symbol and separators
(`"$1,234.56"` parses to 1234.56), returns absent for empty, absent and
non-numeric input, and passes numeric input through unchanged. -/
theorem C7_amount_parser_examples :
    parse_amount_to_float (RawVal.str "$1,234.56") = some (PyNum.fin (1234.56 : ℚ))
    ∧ parse_amount_to_float (RawVal.str "") = Option.none
    ∧ parse_amount_to_float (RawVal.str "abc") = Option.none
    ∧ parse_amount_to_float (RawVal.num (PyNum.fin 1000)) = some (PyNum.fin 1000)
    ∧ parse_amount_to_float RawVal.none = Option.none := by
  refine ⟨?_, by decide, by decide, rfl, rfl⟩
  have h0 : parse_amount_to_float (RawVal.str "$1,234.56")
      = some (classifyFloat ((digitsToNat ['1','2','3','4'] : ℚ)
          + (digitsToNat ['5','6'] : ℚ) / (10 : ℚ) ^ (['5','6'].length))) := rfl
  rw [h0]
  have d1 : digitsToNat ['1','2','3','4'] = 1234 := by decide
  have d2 : digitsToNat ['5','6'] = 56 := by decide
  have hlen : (['5','6'] : List Char).length = 2 := rfl
  rw [d1, d2, hlen]
  have hv : ((1234 : ℕ) : ℚ) + ((56 : ℕ) : ℚ) / (10 : ℚ) ^ (2 : ℕ) = (1234.56 : ℚ) := by
    norm_num
  rw [hv]
  simp only [classifyFloat, floatBound]
  norm_num

/-- C8: feeding the canonical numeric form of any parse result back to
the parser reproduces the result, for every input — including the
infinities, which round-trip through `str`/`float`; a parsed NaN is the
absent value throughout (`pd.isna`), so it reproduces absent. -/
theorem C8_amount_parser_idempotent (x : RawVal) :
    parse_amount_to_float (canonOfParse (parse_amount_to_float x)) = parse_amount_to_float x := by
  cases h : parse_amount_to_float x with
  | none => simp [canonOfParse, parse_amount_to_float]
  | some q => simp [canonOfParse, parse_amount_to_float]

/-- C9: after a dedupe-enabled pass — under any sort behavior at all,
in particular every admissible `sort_values` one — each retained row's
numeric amount is the AmountParser value of its amount cell, and no two
retained rows share the same non-absent case number; amended in that
the amount need not be finite: an `"inf"` cell parses to an infinity
that passes every filter threshold (see the counterexample). -/
theorem C9_retained_table_invariants (f : List Rec → List Rec)
    (tab pdfRecs : List Rec) (m : ℚ) (s : String) :
    ((reconcileFullWith f tab pdfRecs m true).map amountNum
      = (reconcileFullWith f tab pdfRecs m true).map (fun r => parse_amount_to_float r.amount))
    ∧ (groupFor (some s) (reconcileFullWith f tab pdfRecs m true)).length ≤ 1 := by
  refine ⟨rfl, ?_⟩
  show (groupFor (some s) (dropDupKeepFirst []
    (f (filterStep (tab ++ pdfRecs) m)))).length ≤ 1
  rw [groupFor_dropDup, if_neg (List.not_mem_nil _)]
  cases (f (filterStep (tab ++ pdfRecs) m)).find? (fun r => r.case_number = some s) with
  | none => simp
  | some r => simp

/-- C9 counterexample: a tabular amount cell `"inf"` parses to positive
infinity, passes the 10000 filter, and is retained with a non-finite
numeric amount, refuting the claimed absent-or-finite invariant. -/
theorem C9_infinite_amount_retained :
    parse_amount_to_float (RawVal.str "inf") = some (PyNum.inf false)
    ∧ IsDescSort sortStable
    ∧ reconcileFullWith sortStable [recInf] [] 10000 true = [recInf]
    ∧ amountNum recInf = some (PyNum.inf false) :=
  ⟨by decide, sortStable_isDescSort, by decide, by decide⟩

/-- C10: re-running the merge-and-clean stage on its own output with
unchanged parameters reproduces the same rows — amended from exact
table equality to equality as a multiset: under any admissible sort
behavior the re-run output is a permutation of the output, and it is
exactly equal when dedupe is disabled; the unstable default sort may
reorder equal-amount rows (see the counterexample), so order-preserving
idempotence is not guaranteed. -/
theorem C10_reconcile_perm_idempotent (f : List Rec → List Rec) (hf : IsDescSort f)
    (tab pdfRecs : List Rec) (m : ℚ) (d : Bool) :
    ((reconcileFullWith f (reconcileFullWith f tab pdfRecs m d) [] m d).Perm
        (reconcileFullWith f tab pdfRecs m d))
    ∧ (d = false →
        reconcileFullWith f (reconcileFullWith f tab pdfRecs m d) [] m d
          = reconcileFullWith f tab pdfRecs m d) := by
  have happ : reconcileFullWith f (reconcileFullWith f tab pdfRecs m d) [] m d
      = reconcileWith f (reconcileFullWith f tab pdfRecs m d) m d := by
    simp [reconcileFullWith]
  have hpred : ∀ r ∈ filterStep (tab ++ pdfRecs) m,
      (PyNum.fin m).toKey ≤ fillnaKey (amountNum r) := by
    intro r hr
    have := List.mem_filter.mp hr
    simpa using this.2
  cases d with
  | false =>
    have heq : reconcileFullWith f (reconcileFullWith f tab pdfRecs m false) [] m false
        = reconcileFullWith f tab pdfRecs m false := by
      rw [happ]
      show filterStep (filterStep (tab ++ pdfRecs) m) m = filterStep (tab ++ pdfRecs) m
      exact filterStep_of_all _ _ hpred
    exact ⟨by rw [heq], fun _ => heq⟩
  | true =>
    obtain ⟨hpermK, hsortK⟩ := hf (filterStep (tab ++ pdfRecs) m)
    have hmemD : ∀ r ∈ dropDupKeepFirst [] (f (filterStep (tab ++ pdfRecs) m)),
        r ∈ filterStep (tab ++ pdfRecs) m := by
      intro r hr
      exact hpermK.subset ((dropDup_sublist (f (filterStep (tab ++ pdfRecs) m)) []).subset hr)
    have hfilter : filterStep (dropDupKeepFirst [] (f (filterStep (tab ++ pdfRecs) m))) m
        = dropDupKeepFirst [] (f (filterStep (tab ++ pdfRecs) m)) :=
      filterStep_of_all _ _ (fun r hr => hpred r (hmemD r hr))
    obtain ⟨hpermD, _⟩ := hf (dropDupKeepFirst [] (f (filterStep (tab ++ pdfRecs) m)))
    have hdistD : (dropDupKeepFirst [] (f (filterStep (tab ++ pdfRecs) m))).Pairwise
        (fun a b => a.case_number ≠ b.case_number) :=
      (dropDup_keys (f (filterStep (tab ++ pdfRecs) m)) []).2
    have hdistfD : (f (dropDupKeepFirst [] (f (filterStep (tab ++ pdfRecs) m)))).Pairwise
        (fun a b => a.case_number ≠ b.case_number) :=
      (hpermD.pairwise_iff (fun h => Ne.symm h)).mpr hdistD
    have hddk : dropDupKeepFirst [] (f (dropDupKeepFirst [] (f (filterStep (tab ++ pdfRecs) m))))
        = f (dropDupKeepFirst [] (f (filterStep (tab ++ pdfRecs) m))) :=
      dropDup_of_distinct _ [] hdistfD (by simp)
    constructor
    · rw [happ]
      show (dropDupKeepFirst [] (f (filterStep
        (dropDupKeepFirst [] (f (filterStep (tab ++ pdfRecs) m))) m))).Perm _
      rw [hfilter, hddk]
      exact hpermD
    · intro hcontra
      exact absurd hcontra (by simp)

/-- C10 witness: permutation idempotence at a concrete singleton table
with the stable sort instance. -/
theorem C10_reconcile_perm_idempotent_witness :
    (reconcileFullWith sortStable (reconcileFullWith sortStable [rec9999] [] 0 true) [] 0
        true).Perm (reconcileFullWith sortStable [rec9999] [] 0 true) :=
  (C10_reconcile_perm_idempotent sortStable sortStable_isDescSort [rec9999] [] 0 true).1

/-- C10 counterexample: the anti-stable realization of the sort
contract — indistinguishable from the unstable pandas default by the
sort's guarantees — reverses an equal-amount pair on re-run, so the
re-run table differs from the first output as a list, refuting
order-preserving idempotence as originally claimed. -/
theorem C10_unstable_sort_reorders :
    IsDescSort sortAnti
    ∧ reconcileFullWith sortAnti (reconcileFullWith sortAnti [recTieX, recTieY] [] 0 true) [] 0 true
        ≠ reconcileFullWith sortAnti [recTieX, recTieY] [] 0 true :=
  ⟨sortAnti_isDescSort, by decide⟩
